import Mathlib

/-!
Verification of the sortable drag-and-drop list (src/components/sortable/index.js).

The reducer state, its actions, the event handlers (`dragStart`, `drag`,
`dragEnd`), the pointer-move effect (transform assignment and live target
index scan) and the commit step of `useSortable` are embedded as Lean
functions. Geometry is modelled over `ℚ` (DOM client coordinates); DOM
nodes are identified by natural numbers; JavaScript `undefined` fields are
`Option`.
-/

/-- A DOMRect as returned by `getBoundingClientRect()`: only the fields the
code reads. -/
structure Rect where
  x : ℚ
  y : ℚ
  width : ℚ
  height : ℚ
deriving DecidableEq

/-- The reducer state. `initialState` in the source is `{ nodes: [] }`: every
other field starts out as JavaScript `undefined`, modelled by `none`.
`draggedElement` stores the node together with its rect snapshot;
`draggedElementIndex` is the result of `findIndex` (hence `Int`: `-1` when
absent). -/
structure SortableState where
  nodes : List Nat
  isDragging : Option Bool
  initialY : Option ℚ
  currentY : Option ℚ
  draggedElement : Option (Nat × Rect)
  draggedElementIndex : Option Int
  draggedElementNewIndex : Option Int
  duplicateNode : Option Nat
deriving DecidableEq

/-- The initial state, `{ nodes: [] }` in the source. -/
def initialState : SortableState :=
  { nodes := []
    isDragging := none
    initialY := none
    currentY := none
    draggedElement := none
    draggedElementIndex := none
    draggedElementNewIndex := none
    duplicateNode := none }

/-- Reducer actions. `dragStartAct` carries the data the dispatch site reads
from the DOM at dispatch time: the pressed node, its bounding rect, and the
fresh id of the clone created by `cloneNode`. -/
inductive SortableAction where
  | addNode (node : Nat)
  | dragStartAct (initialY : ℚ) (node : Nat) (rect : Rect) (dup : Nat)
  | dragEndAct
  | setCurrentY (y : ℚ)
  | setNewIndex (i : Int)

/-- Semantics of `state.nodes.findIndex(node => node === n)`: index of the
first occurrence, `-1` when absent. -/
def jsFindIndex (nodes : List Nat) (n : Nat) : Int :=
  match nodes.findIdx? (· == n) with
  | some i => (i : Int)
  | none => -1

/-- The reducer (`switch (action.type)` in the source). `ADD_NODE` pushes,
`DRAG_START` sets the session fields, `DRAG_END` only clears `isDragging`,
`SET_CURRENT_Y` and `SET_NEW_INDEX` set one field each. -/
def reducer (s : SortableState) (a : SortableAction) : SortableState :=
  match a with
  | .addNode n => { s with nodes := s.nodes ++ [n] }
  | .dragStartAct y n r dup =>
      { s with
        isDragging := some true
        initialY := some y
        draggedElement := some (n, r)
        draggedElementIndex := some (jsFindIndex s.nodes n)
        duplicateNode := some dup }
  | .dragEndAct => { s with isDragging := some false }
  | .setCurrentY y => { s with currentY := some y }
  | .setNewIndex i => { s with draggedElementNewIndex := some i }

/-- Handler `dragStart(e)`: dispatches `DRAG_START` only when the event target is one
of the registered nodes (`state.nodes.some(node => node === e.target)`).
`rect` is the target's bounding rect and `dup` the clone id at dispatch
time. -/
def dragStart (s : SortableState) (target : Nat) (clientY : ℚ) (rect : Rect)
    (dup : Nat) : SortableState :=
  if s.nodes.any (· == target) then
    reducer s (.dragStartAct clientY target rect dup)
  else s

/-- Handler `dragEnd()`: unconditionally dispatches `DRAG_END`. -/
def dragEnd (s : SortableState) : SortableState :=
  reducer s .dragEndAct

/-- Handler `drag(e)`: when `state.isDragging` is truthy, dispatches
`SET_CURRENT_Y` with `clientY - state.initialY` (reachable dragging states
always have `initialY` set, so the `getD` default is never read there). -/
def drag (s : SortableState) (clientY : ℚ) : SortableState :=
  if s.isDragging = some true then
    reducer s (.setCurrentY (clientY - s.initialY.getD 0))
  else s

/-- The containment test of the move effect, line 245 of the source:
`offset > rect.y && offset < rect.y + rect.height`. -/
def containsQ (offset : ℚ) (r : Rect) : Prop :=
  r.y < offset ∧ offset < r.y + r.height

instance (offset : ℚ) (r : Rect) : Decidable (containsQ offset r) :=
  inferInstanceAs (Decidable (_ ∧ _))

/-- The `SET_NEW_INDEX` side of the `forEach` in the move effect: scanning
rects in ascending index order starting at `idx`, each containing rect
overwrites the accumulator with its index; `acc` starts as the previous
`draggedElementNewIndex`. -/
def newIndexScan (offset : ℚ) (rects : List Rect) (idx : Nat)
    (acc : Option Int) : Option Int :=
  match rects with
  | [] => acc
  | r :: rs =>
      newIndexScan offset rs (idx + 1)
        (if containsQ offset r then some (idx : Int) else acc)

/-- The transform assigned to the node at `index` by the move effect
(lines 235-241): shift up by the dragged height, shift down by it, or reset
to zero. -/
def transformFor (offset : ℚ) (di : Int) (index : Nat) (r : Rect)
    (dh : ℚ) : ℚ :=
  if offset > r.y ∧ di < (index : Int) then -dh
  else if offset < r.y + r.height ∧ di > (index : Int) then dh
  else 0

/-- The transform side of the `forEach`: the node at the dragged index is
left untouched (`none`), every other node gets `transformFor`. -/
def dragTransformsAux (offset : ℚ) (di : Int) (dh : ℚ) (rects : List Rect)
    (idx : Nat) : List (Option ℚ) :=
  match rects with
  | [] => []
  | r :: rs =>
      (if (idx : Int) = di then none
       else some (transformFor offset di idx r dh)) ::
        dragTransformsAux offset di dh rs (idx + 1)

/-- The pointer-move effect (lines 217-250), given the rects the per-node
`getBoundingClientRect()` calls return: computes the midpoint offset
`currentY + draggedRect.y + draggedRect.height / 2`, folds `SET_NEW_INDEX`
dispatches into `draggedElementNewIndex`, and returns the per-node transform
assignments. Guarded by `state.duplicateNode`; `draggedElement` is set
whenever `duplicateNode` is. -/
def dragMoveEffect (s : SortableState) (rects : List Rect) :
    SortableState × List (Option ℚ) :=
  match s.duplicateNode, s.draggedElement with
  | some _, some (_, draggedRect) =>
      let offset := s.currentY.getD 0 + draggedRect.y + draggedRect.height / 2
      let di := s.draggedElementIndex.getD (-1)
      ({ s with
          draggedElementNewIndex :=
            newIndexScan offset rects 0 s.draggedElementNewIndex },
       dragTransformsAux offset di draggedRect.height rects 0)
  | _, _ => (s, [])

/-- The commit move `draft.splice(newIndex, 0, draft.splice(oldIndex, 1)[0])`,
for in-range
indices: remove the element at `oldIndex`, insert it back at `newIndex`.
Out-of-range removal (where JavaScript would splice `undefined` into the
array) is outside the model: the list is returned unchanged. -/
def spliceMove (oldIndex newIndex : Nat) (items : List α) : List α :=
  match items[oldIndex]? with
  | some x => (items.eraseIdx oldIndex).insertIdx newIndex x
  | none => items

/-- JavaScript `ToInteger` of a possibly-`undefined` number. -/
def jsToInteger : Option Int → Int
  | some i => i
  | none => 0

/-- Start-index clamping of `Array.prototype.splice`: negative indices count
from the end (floored at `0`), positive ones are capped at the length. -/
def spliceStart (start : Int) (len : Nat) : Nat :=
  if start < 0 then ((len : Int) + start).toNat else min start.toNat len

/-- The commit effect of `useSortable`: when `isDragging === false` and
`oldIndex !== newIndex`, move the item at `oldIndex` to `newIndex`
(remove-then-insert); otherwise keep the items. The insert index is clamped
against the post-removal length, as `splice` does. -/
def useSortableCommit (isDragging : Option Bool) (oldIndex newIndex : Option Int)
    (items : List α) : List α :=
  if isDragging = some false ∧ oldIndex ≠ newIndex then
    spliceMove (spliceStart (jsToInteger oldIndex) items.length)
      (spliceStart (jsToInteger newIndex) (items.length - 1)) items
  else items

/-- Registering a list of nodes in mount order: each `useSortableElement`
mount effect calls `addNode`, which dispatches `ADD_NODE`. -/
def mkIdleState (ns : List Nat) : SortableState :=
  ns.foldl (fun s n => reducer s (.addNode n)) initialState

/-! ### List lemmas for the splice-based move -/

/-- Inserting at an in-range position is a permutation of consing. -/
theorem insertIdx_perm_cons : ∀ (n : Nat) (x : α) (l : List α), n ≤ l.length →
    (l.insertIdx n x).Perm (x :: l)
  | 0, x, l, _ => by simp
  | n + 1, _, [], h => by simp at h
  | n + 1, x, a :: l, h => by
      simp only [List.insertIdx_succ_cons]
      exact ((insertIdx_perm_cons n x l (Nat.le_of_succ_le_succ h)).cons a).trans
        (List.Perm.swap x a l)

/-- Removing an element and reinserting it at the same position is the
identity. -/
theorem insertIdx_getElem_eraseIdx : ∀ (xs : List α) (f : Nat) (h : f < xs.length),
    (xs.eraseIdx f).insertIdx f xs[f] = xs
  | x :: t, 0, _ => by simp
  | x :: t, f + 1, h => by
      simp only [List.eraseIdx_cons_succ, List.insertIdx_succ_cons,
        List.getElem_cons_succ]
      exact congrArg (x :: ·) (insertIdx_getElem_eraseIdx t f (Nat.lt_of_succ_lt_succ h))

/-- A list is a permutation of its element at `f` consed onto the list with
that element erased. -/
theorem perm_getElem_cons_eraseIdx (xs : List α) (f : Nat) (h : f < xs.length) :
    xs.Perm (xs[f] :: xs.eraseIdx f) := by
  conv_lhs => rw [← List.take_append_drop f xs]
  rw [List.eraseIdx_eq_take_drop_succ, ← List.getElem_cons_drop xs f h]
  exact List.perm_middle

/-- Claim C1: for a valid pair `(from, to)` with `from ≠ to`, the drag-end
commit (splice out at `from`, splice back in at `to`) preserves length and
the multiset of items, puts the item originally at `from` at index `to`, and
keeps all other items in their original relative order (erasing the moved
item from the result gives the original list with the item at `from`
erased). -/
theorem spliceMove_moves_item {α : Type} (xs : List α) (f t : Nat)
    (hf : f < xs.length) (ht : t < xs.length) (_hne : f ≠ t) :
    (spliceMove f t xs).length = xs.length ∧
    (spliceMove f t xs).Perm xs ∧
    (spliceMove f t xs)[t]? = xs[f]? ∧
    (spliceMove f t xs).eraseIdx t = xs.eraseIdx f := by
  have hx : xs[f]? = some xs[f] := List.getElem?_eq_getElem hf
  have hsm : spliceMove f t xs = (xs.eraseIdx f).insertIdx t xs[f] := by
    unfold spliceMove
    rw [hx]
  have hE : (xs.eraseIdx f).length = xs.length - 1 :=
    List.length_eraseIdx_of_lt hf
  have ht' : t ≤ (xs.eraseIdx f).length := by omega
  refine ⟨?_, ?_, ?_, ?_⟩
  · rw [hsm, List.length_insertIdx t _ ht']
    omega
  · rw [hsm]
    exact (insertIdx_perm_cons t xs[f] _ ht').trans
      (perm_getElem_cons_eraseIdx xs f hf).symm
  · rw [hsm]
    have hlen : t < (((xs.eraseIdx f).insertIdx t xs[f])).length := by
      rw [List.length_insertIdx t _ ht']
      omega
    rw [List.getElem?_eq_getElem hlen, hx,
      List.getElem_insertIdx_self _ _ t ht']
  · rw [hsm, List.eraseIdx_insertIdx t _]

/-- Witness for C1 at `xs = [10, 20, 30]`, `from = 0`, `to = 2`. -/
theorem spliceMove_moves_item_witness :
    (spliceMove 0 2 [10, 20, 30]).length = 3 ∧
    (spliceMove 0 2 [10, 20, 30]).Perm [10, 20, 30] ∧
    (spliceMove 0 2 [10, 20, 30])[2]? = [10, 20, 30][0]? ∧
    (spliceMove 0 2 [10, 20, 30]).eraseIdx 2 = [10, 20, 30].eraseIdx 0 :=
  spliceMove_moves_item [10, 20, 30] 0 2 (by decide) (by decide) (by decide)

/-- Claim C2: the two concrete scenarios on `S = [A, B, C, D, E]`: committing
origin index `0` with live target index `2` gives `[B, C, A, D, E]`, and
committing origin index `4` with live target index `1` gives
`[A, E, B, C, D]`. -/
theorem commit_concrete_scenarios :
    useSortableCommit (some false) (some 0) (some 2) ['A', 'B', 'C', 'D', 'E']
      = ['B', 'C', 'A', 'D', 'E'] ∧
    useSortableCommit (some false) (some 4) (some 1) ['A', 'B', 'C', 'D', 'E']
      = ['A', 'E', 'B', 'C', 'D'] := by
  decide

/-- Claim C3: the commit applies the move exactly when the origin index
differs from the live target index; with equal indices the items are
unchanged, and `spliceMove f f` is itself the identity on the sequence. -/
theorem commit_iff_indices_differ {α : Type} (xs : List α) (o n : Int)
    (f : Nat) (hf : f < xs.length) :
    (o ≠ n → useSortableCommit (some false) (some o) (some n) xs
      = spliceMove (spliceStart o xs.length) (spliceStart n (xs.length - 1)) xs) ∧
    (o = n → useSortableCommit (some false) (some o) (some n) xs = xs) ∧
    spliceMove f f xs = xs := by
  refine ⟨fun hne => ?_, fun heq => ?_, ?_⟩
  · unfold useSortableCommit
    rw [if_pos ⟨rfl, fun hc => hne (by simpa using hc)⟩]
    rfl
  · unfold useSortableCommit
    rw [if_neg (fun hc => hc.2 (by rw [heq]))]
  · unfold spliceMove
    rw [List.getElem?_eq_getElem hf]
    exact insertIdx_getElem_eraseIdx xs f hf

/-- Witness for C3 at `xs = [10, 20, 30]`, `o = 0`, `n = 2`, `f = 1`. -/
theorem commit_iff_indices_differ_witness :
    ((0 : Int) ≠ 2 → useSortableCommit (some false) (some 0) (some 2) [10, 20, 30]
      = spliceMove (spliceStart 0 3) (spliceStart 2 2) [10, 20, 30]) ∧
    ((0 : Int) = 2 → useSortableCommit (some false) (some 0) (some 2) [10, 20, 30]
      = [10, 20, 30]) ∧
    spliceMove 1 1 [10, 20, 30] = [10, 20, 30] :=
  commit_iff_indices_differ [10, 20, 30] 0 2 1 (by decide)

/-! ### State-machine lemmas -/

/-- Folding `ADD_NODE` dispatches over a list appends the nodes in order and
touches no other field. -/
theorem foldl_addNode (ns : List Nat) (s : SortableState) :
    ns.foldl (fun s n => reducer s (.addNode n)) s
      = { s with nodes := s.nodes ++ ns } := by
  induction ns generalizing s with
  | nil => simp
  | cons n t ih =>
      rw [List.foldl_cons, ih]
      simp [reducer]

/-- Mounting a list of sortable elements yields the idle state whose registry
is exactly that list. -/
theorem mkIdleState_eq (ns : List Nat) :
    mkIdleState ns = { initialState with nodes := ns } := by
  simp [mkIdleState, foldl_addNode, initialState]

/-- When no scanned rect contains the offset, the scan keeps the
accumulator. -/
theorem newIndexScan_of_none (offset : ℚ) :
    ∀ (rects : List Rect) (idx : Nat) (acc : Option Int),
      (∀ j (hj : j < rects.length), ¬ containsQ offset rects[j]) →
      newIndexScan offset rects idx acc = acc
  | [], _, _, _ => rfl
  | r :: rs, idx, acc, h => by
      rw [newIndexScan,
        if_neg (show ¬ containsQ offset r by simpa using h 0 (by simp))]
      exact newIndexScan_of_none offset rs (idx + 1) acc
        (fun j hj => h (j + 1) (by simpa using Nat.succ_lt_succ hj))

/-- When the rect at `i` contains the offset and no later rect does, the scan
returns `idx + i` whatever the accumulator held. -/
theorem newIndexScan_last (offset : ℚ) :
    ∀ (rects : List Rect) (idx : Nat) (acc : Option Int) (i : Nat)
      (hi : i < rects.length), containsQ offset rects[i] →
      (∀ j (hj : j < rects.length), i < j → ¬ containsQ offset rects[j]) →
      newIndexScan offset rects idx acc = some ((idx + i : Nat) : Int)
  | r :: rs, idx, acc, 0, hi, hc, hlater => by
      rw [newIndexScan, if_pos (by simpa using hc),
        newIndexScan_of_none offset rs (idx + 1) (some (idx : Int))
          (fun j hj => by
            simpa using hlater (j + 1) (by simpa using Nat.succ_lt_succ hj)
              (Nat.succ_pos j))]
      simp
  | r :: rs, idx, acc, i + 1, hi, hc, hlater => by
      rw [newIndexScan]
      rw [newIndexScan_last offset rs (idx + 1) _ i
        (by simpa using Nat.lt_of_succ_lt_succ hi) (by simpa using hc)
        (fun j hj hij => by
          simpa using hlater (j + 1) (by simpa using Nat.succ_lt_succ hj)
            (Nat.succ_lt_succ hij))]
      congr 1
      omega

/-- Element-wise description of the transform list produced by the move
effect's `forEach`. -/
theorem dragTransformsAux_getElem (offset : ℚ) (di : Int) (dh : ℚ) :
    ∀ (rects : List Rect) (idx i : Nat),
      (dragTransformsAux offset di dh rects idx)[i]? =
        (rects[i]?).map (fun r =>
          if ((idx + i : Nat) : Int) = di then none
          else some (transformFor offset di (idx + i) r dh))
  | [], idx, i => by simp [dragTransformsAux]
  | r :: rs, idx, 0 => by simp [dragTransformsAux]
  | r :: rs, idx, i + 1 => by
      rw [dragTransformsAux]
      simp only [List.getElem?_cons_succ]
      rw [dragTransformsAux_getElem offset di dh rs (idx + 1) i]
      have : idx + 1 + i = idx + (i + 1) := by omega
      rw [this]

/-- Claim C4: on a pointer-move step with midpoint offset
`currentOffsetY + originRect.y + originRect.height / 2`, every handle at an
index other than the dragged one is assigned exactly one of three offsets:
up by the origin height when `offset > rect.y` and `draggedIndex < index`,
otherwise down by the origin height when `offset < rect.y + rect.height` and
`draggedIndex > index`, otherwise the neutral zero offset. -/
theorem dragTransforms_trichotomy (s : SortableState) (rects : List Rect)
    (dup target : Nat) (dr : Rect) (di : Int)
    (hdup : s.duplicateNode = some dup)
    (hde : s.draggedElement = some (target, dr))
    (hdi : s.draggedElementIndex = some di)
    (i : Nat) (r : Rect) (hr : rects[i]? = some r) (hne : (i : Int) ≠ di) :
    ((s.currentY.getD 0 + dr.y + dr.height / 2 > r.y ∧ di < (i : Int)) →
      ((dragMoveEffect s rects).2)[i]? = some (some (-dr.height))) ∧
    (¬(s.currentY.getD 0 + dr.y + dr.height / 2 > r.y ∧ di < (i : Int)) →
      (s.currentY.getD 0 + dr.y + dr.height / 2 < r.y + r.height ∧
        di > (i : Int)) →
      ((dragMoveEffect s rects).2)[i]? = some (some dr.height)) ∧
    (¬(s.currentY.getD 0 + dr.y + dr.height / 2 > r.y ∧ di < (i : Int)) →
      ¬(s.currentY.getD 0 + dr.y + dr.height / 2 < r.y + r.height ∧
        di > (i : Int)) →
      ((dragMoveEffect s rects).2)[i]? = some (some 0)) := by
  have h2 : ((dragMoveEffect s rects).2)[i]? =
      some (some (transformFor (s.currentY.getD 0 + dr.y + dr.height / 2)
        di i r dr.height)) := by
    have hm : (dragMoveEffect s rects).2 =
        dragTransformsAux (s.currentY.getD 0 + dr.y + dr.height / 2) di
          dr.height rects 0 := by
      simp [dragMoveEffect, hdup, hde, hdi]
    rw [hm, dragTransformsAux_getElem _ _ _ rects 0 i, hr]
    simp [hne]
  refine ⟨fun hc => ?_, fun hn1 hc2 => ?_, fun hn1 hn2 => ?_⟩
  · rw [h2]
    unfold transformFor
    rw [if_pos hc]
  · rw [h2]
    unfold transformFor
    rw [if_neg hn1, if_pos hc2]
  · rw [h2]
    unfold transformFor
    rw [if_neg hn1, if_neg hn2]

/-- Witness for C4: dragged index `0`, handle `1` with rect
`y = 10, height = 10`, pointer moved down by `8`, so the midpoint `13` has
passed `rect.y` and the handle shifts up by the origin height `10`. -/
theorem dragTransforms_trichotomy_witness :
    ((⟨[1, 2], some true, some 0, some 8, some (1, ⟨0, 0, 50, 10⟩), some 0,
        none, some 9⟩ : SortableState).currentY.getD 0 + (0 : ℚ) + 10 / 2
        > (10 : ℚ) ∧ (0 : Int) < (1 : Int)) ∧
    ((dragMoveEffect
        ⟨[1, 2], some true, some 0, some 8, some (1, ⟨0, 0, 50, 10⟩), some 0,
          none, some 9⟩
        [⟨0, 0, 50, 10⟩, ⟨0, 10, 50, 10⟩]).2)[1]?
      = some (some (-10 : ℚ)) :=
  ⟨by norm_num,
    (dragTransforms_trichotomy
      ⟨[1, 2], some true, some 0, some 8, some (1, ⟨0, 0, 50, 10⟩), some 0,
        none, some 9⟩
      [⟨0, 0, 50, 10⟩, ⟨0, 10, 50, 10⟩] 9 1 ⟨0, 0, 50, 10⟩ 0 rfl rfl rfl 1
      ⟨0, 10, 50, 10⟩ rfl (by decide)).1 (by norm_num)⟩

/-- Claim C5: the live target index is the last handle in ascending scan
order whose rectangle strictly contains the midpoint offset, so the
highest containing index wins; when no rectangle contains the offset the
previous value is kept. -/
theorem liveTarget_last_containing (s : SortableState) (rects : List Rect)
    (dup target : Nat) (dr : Rect)
    (hdup : s.duplicateNode = some dup)
    (hde : s.draggedElement = some (target, dr)) :
    (∀ i (hi : i < rects.length),
      containsQ (s.currentY.getD 0 + dr.y + dr.height / 2) rects[i] →
      (∀ j (hj : j < rects.length), i < j →
        ¬ containsQ (s.currentY.getD 0 + dr.y + dr.height / 2) rects[j]) →
      ((dragMoveEffect s rects).1).draggedElementNewIndex = some (i : Int)) ∧
    ((∀ j (hj : j < rects.length),
        ¬ containsQ (s.currentY.getD 0 + dr.y + dr.height / 2) rects[j]) →
      ((dragMoveEffect s rects).1).draggedElementNewIndex
        = s.draggedElementNewIndex) := by
  have h1 : ((dragMoveEffect s rects).1).draggedElementNewIndex =
      newIndexScan (s.currentY.getD 0 + dr.y + dr.height / 2) rects 0
        s.draggedElementNewIndex := by
    simp [dragMoveEffect, hdup, hde]
  refine ⟨fun i hi hc hlater => ?_, fun hnone => ?_⟩
  · rw [h1, newIndexScan_last _ rects 0 _ i hi hc
      (fun j hj hij => hlater j hj hij)]
    simp
  · rw [h1, newIndexScan_of_none _ rects 0 _ hnone]

/-- Witness for C5: midpoint offset `17` lies inside the second handle's
rectangle only, so the scan lands on index `1`. -/
theorem liveTarget_last_containing_witness :
    (1 < 2 ∧
      containsQ
        ((⟨[1, 2], some true, some 0, some 12, some (1, ⟨0, 0, 50, 10⟩),
          some 0, none, some 9⟩ : SortableState).currentY.getD 0
          + (0 : ℚ) + 10 / 2) ⟨0, 10, 50, 10⟩) ∧
    ((dragMoveEffect
        ⟨[1, 2], some true, some 0, some 12, some (1, ⟨0, 0, 50, 10⟩), some 0,
          none, some 9⟩
        [⟨0, 0, 50, 10⟩, ⟨0, 10, 50, 10⟩]).1).draggedElementNewIndex
      = some 1 :=
  ⟨⟨by decide, by norm_num [containsQ]⟩,
    (liveTarget_last_containing
      ⟨[1, 2], some true, some 0, some 12, some (1, ⟨0, 0, 50, 10⟩), some 0,
        none, some 9⟩
      [⟨0, 0, 50, 10⟩, ⟨0, 10, 50, 10⟩] 9 1 ⟨0, 0, 50, 10⟩ rfl rfl).1 1
      (by decide) (by norm_num [containsQ])
      (fun j hj hij =>
        absurd hj (by simp only [List.length_cons, List.length_nil]; omega))⟩

/-- Claim C6: a drag session with zero net pointer movement (the move event
reports the press-start `clientY`, so `currentOffsetY = 0`), in a layout
where the dragged handle's live rect equals its origin rect (positive
height) and no other handle's rect contains the origin midpoint, ends with
the live target index equal to the dragged index and commits no
permutation: the items are unchanged. -/
theorem zero_motion_session_identity {α : Type} (ns : List Nat) (target : Nat)
    (k : Nat) (y0 : ℚ) (r : Rect) (dup : Nat) (rects : List Rect)
    (items : List α)
    (hmem : target ∈ ns)
    (hfind : jsFindIndex ns target = (k : Int))
    (hk : rects[k]? = some r)
    (hh : 0 < r.height)
    (hothers : ∀ j (hj : j < rects.length), j ≠ k →
      ¬ containsQ (r.y + r.height / 2) rects[j]) :
    (dragEnd ((dragMoveEffect
      (drag (dragStart (mkIdleState ns) target y0 r dup) y0)
      rects).1)).draggedElementIndex = some (k : Int) ∧
    (dragEnd ((dragMoveEffect
      (drag (dragStart (mkIdleState ns) target y0 r dup) y0)
      rects).1)).draggedElementNewIndex = some (k : Int) ∧
    useSortableCommit
      (dragEnd ((dragMoveEffect
        (drag (dragStart (mkIdleState ns) target y0 r dup) y0)
        rects).1)).isDragging
      (dragEnd ((dragMoveEffect
        (drag (dragStart (mkIdleState ns) target y0 r dup) y0)
        rects).1)).draggedElementIndex
      (dragEnd ((dragMoveEffect
        (drag (dragStart (mkIdleState ns) target y0 r dup) y0)
        rects).1)).draggedElementNewIndex
      items = items := by
  have h1 : dragStart (mkIdleState ns) target y0 r dup =
      { nodes := ns, isDragging := some true, initialY := some y0,
        currentY := none, draggedElement := some (target, r),
        draggedElementIndex := some (k : Int),
        draggedElementNewIndex := none, duplicateNode := some dup } := by
    rw [mkIdleState_eq]
    unfold dragStart
    rw [if_pos (by
      simp only [List.any_eq_true, beq_iff_eq]
      exact ⟨target, hmem, rfl⟩)]
    simp [reducer, initialState, hfind]
  have h2 : drag (dragStart (mkIdleState ns) target y0 r dup) y0 =
      { nodes := ns, isDragging := some true, initialY := some y0,
        currentY := some 0, draggedElement := some (target, r),
        draggedElementIndex := some (k : Int),
        draggedElementNewIndex := none, duplicateNode := some dup } := by
    rw [h1]
    unfold drag
    rw [if_pos rfl]
    simp [reducer]
  have hklt : k < rects.length := by
    by_contra hno
    rw [List.getElem?_eq_none (by omega)] at hk
    cases hk
  have hcont : containsQ (r.y + r.height / 2) (rects.get ⟨k, hklt⟩) := by
    have hg : rects.get ⟨k, hklt⟩ = r := by
      have he := List.getElem?_eq_getElem hklt
      rw [he] at hk
      exact Option.some.inj hk
    rw [hg]
    exact ⟨by linarith, by linarith⟩
  have hscan : newIndexScan (r.y + r.height / 2) rects 0 none
      = some ((0 + k : Nat) : Int) :=
    newIndexScan_last _ rects 0 none k hklt hcont
      (fun j hj hij => hothers j hj (by omega))
  have h3 : (dragMoveEffect
      (drag (dragStart (mkIdleState ns) target y0 r dup) y0) rects).1 =
      { nodes := ns, isDragging := some true, initialY := some y0,
        currentY := some 0, draggedElement := some (target, r),
        draggedElementIndex := some (k : Int),
        draggedElementNewIndex := some (k : Int),
        duplicateNode := some dup } := by
    rw [h2]
    simp only [dragMoveEffect, Option.getD_some, zero_add]
    rw [hscan]
    simp
  have hend : dragEnd ((dragMoveEffect
      (drag (dragStart (mkIdleState ns) target y0 r dup) y0) rects).1) =
      { nodes := ns, isDragging := some false, initialY := some y0,
        currentY := some 0, draggedElement := some (target, r),
        draggedElementIndex := some (k : Int),
        draggedElementNewIndex := some (k : Int),
        duplicateNode := some dup } := by
    rw [h3]
    simp [dragEnd, reducer]
  refine ⟨by rw [hend], by rw [hend], ?_⟩
  rw [hend]
  unfold useSortableCommit
  rw [if_neg (fun hc => hc.2 rfl)]

/-- Witness for C6: two stacked handles of height `10`, dragging the first
(`target = 5`, index `0`) with a move event at the original `clientY = 3`. -/
theorem zero_motion_session_identity_witness :
    ((5 : Nat) ∈ [5, 6] ∧ jsFindIndex [5, 6] 5 = 0 ∧
      (0 : ℚ) < (⟨0, 0, 50, 10⟩ : Rect).height) ∧
    (dragEnd ((dragMoveEffect
      (drag (dragStart (mkIdleState [5, 6]) 5 3 ⟨0, 0, 50, 10⟩ 9) 3)
      [⟨0, 0, 50, 10⟩, ⟨0, 10, 50, 10⟩]).1)).draggedElementIndex = some 0 ∧
    (dragEnd ((dragMoveEffect
      (drag (dragStart (mkIdleState [5, 6]) 5 3 ⟨0, 0, 50, 10⟩ 9) 3)
      [⟨0, 0, 50, 10⟩, ⟨0, 10, 50, 10⟩]).1)).draggedElementNewIndex = some 0 ∧
    useSortableCommit
      (dragEnd ((dragMoveEffect
        (drag (dragStart (mkIdleState [5, 6]) 5 3 ⟨0, 0, 50, 10⟩ 9) 3)
        [⟨0, 0, 50, 10⟩, ⟨0, 10, 50, 10⟩]).1)).isDragging
      (dragEnd ((dragMoveEffect
        (drag (dragStart (mkIdleState [5, 6]) 5 3 ⟨0, 0, 50, 10⟩ 9) 3)
        [⟨0, 0, 50, 10⟩, ⟨0, 10, 50, 10⟩]).1)).draggedElementIndex
      (dragEnd ((dragMoveEffect
        (drag (dragStart (mkIdleState [5, 6]) 5 3 ⟨0, 0, 50, 10⟩ 9) 3)
        [⟨0, 0, 50, 10⟩, ⟨0, 10, 50, 10⟩]).1)).draggedElementNewIndex
      [10, 20] = [10, 20] :=
  ⟨⟨by decide, rfl, by norm_num⟩,
    zero_motion_session_identity [5, 6] 5 0 3 ⟨0, 0, 50, 10⟩ 9
      [⟨0, 0, 50, 10⟩, ⟨0, 10, 50, 10⟩] [10, 20] (by decide) rfl rfl
      (by norm_num)
      (by
        intro j hj hne
        simp only [List.length_cons, List.length_nil] at hj
        interval_cases j
        · exact absurd rfl hne
        · norm_num [containsQ])⟩

/-- Counterexample to claim C7: with a session already active on node `1`
(origin index `0`), a second press-start on registered node `2` with no
intervening press-end is NOT ignored: it rebinds the session to the new
target (`draggedElementIndex` becomes `1`) and changes the state. -/
theorem second_dragStart_not_ignored_cex :
    (dragStart (dragStart (mkIdleState [1, 2]) 1 0 ⟨0, 0, 1, 1⟩ 9)
      2 0 ⟨0, 0, 1, 1⟩ 10).draggedElementIndex = some 1 ∧
    (dragStart (mkIdleState [1, 2]) 1 0 ⟨0, 0, 1, 1⟩ 9).isDragging
      = some true ∧
    (dragStart (mkIdleState [1, 2]) 1 0 ⟨0, 0, 1, 1⟩ 9).draggedElementIndex
      = some 0 ∧
    dragStart (dragStart (mkIdleState [1, 2]) 1 0 ⟨0, 0, 1, 1⟩ 9)
      2 0 ⟨0, 0, 1, 1⟩ 10
      ≠ dragStart (mkIdleState [1, 2]) 1 0 ⟨0, 0, 1, 1⟩ 9 :=
  ⟨rfl, rfl, rfl, fun h =>
    absurd (show (some 1 : Option Int) = some 0 from
      congrArg SortableState.draggedElementIndex h) (by decide)⟩

/-- Claim C7 (amended): a press-start while a session is active
(`isDragging = true`) is ignored only when its target is unregistered; on a
registered target it dispatches `DRAG_START` again, rebinding
`draggedElement`, `draggedElementIndex`, `initialY` and `duplicateNode` to
the new target, so the session does not stay bound to the first one. -/
theorem second_dragStart_rebinds (s : SortableState) (target : Nat) (y : ℚ)
    (r : Rect) (dup : Nat) (_hd : s.isDragging = some true)
    (hmem : target ∈ s.nodes) :
    dragStart s target y r dup
      = { s with
          isDragging := some true, initialY := some y,
          draggedElement := some (target, r),
          draggedElementIndex := some (jsFindIndex s.nodes target),
          duplicateNode := some dup } := by
  unfold dragStart
  rw [if_pos (by
    simp only [List.any_eq_true, beq_iff_eq]
    exact ⟨target, hmem, rfl⟩)]
  rfl

/-- Witness for C7 (amended) on a dragging state with registry `[3]`. -/
theorem second_dragStart_rebinds_witness :
    dragStart ⟨[3], some true, some 0, none, none, none, none, none⟩
      3 2 ⟨0, 0, 1, 1⟩ 7
      = { nodes := [3], isDragging := some true, initialY := some 2,
          currentY := none, draggedElement := some (3, ⟨0, 0, 1, 1⟩),
          draggedElementIndex := some (jsFindIndex [3] 3),
          duplicateNode := some 7, draggedElementNewIndex := none } :=
  second_dragStart_rebinds
    ⟨[3], some true, some 0, none, none, none, none, none⟩ 3 2 ⟨0, 0, 1, 1⟩ 7
    rfl (by decide)

/-- Claim C8: a press-start on an unregistered target opens no session (the
state is exactly unchanged), a subsequent move event is a strict no-op, and
a subsequent end event sets no session field (registry, dragged element,
indices and duplicate stay empty) and commits nothing: the items are
unchanged. -/
theorem unregistered_press_ignored {α : Type} (ns : List Nat) (target : Nat)
    (y y2 : ℚ) (r : Rect) (dup : Nat) (items : List α)
    (hnot : target ∉ ns) :
    dragStart (mkIdleState ns) target y r dup = mkIdleState ns ∧
    drag (mkIdleState ns) y2 = mkIdleState ns ∧
    (dragEnd (mkIdleState ns)).nodes = ns ∧
    (dragEnd (mkIdleState ns)).draggedElement = none ∧
    (dragEnd (mkIdleState ns)).draggedElementIndex = none ∧
    (dragEnd (mkIdleState ns)).draggedElementNewIndex = none ∧
    (dragEnd (mkIdleState ns)).duplicateNode = none ∧
    useSortableCommit (dragEnd (mkIdleState ns)).isDragging
      (dragEnd (mkIdleState ns)).draggedElementIndex
      (dragEnd (mkIdleState ns)).draggedElementNewIndex items = items := by
  have hend : dragEnd (mkIdleState ns) =
      { nodes := ns, isDragging := some false, initialY := none,
        currentY := none, draggedElement := none,
        draggedElementIndex := none, draggedElementNewIndex := none,
        duplicateNode := none } := by
    rw [mkIdleState_eq]
    simp [dragEnd, reducer, initialState]
  refine ⟨?_, ?_, by rw [hend], by rw [hend], by rw [hend], by rw [hend],
    by rw [hend], ?_⟩
  · unfold dragStart
    rw [if_neg (by
      intro hcond
      rw [mkIdleState_eq] at hcond
      simp only [List.any_eq_true, beq_iff_eq] at hcond
      obtain ⟨x, hx, rfl⟩ := hcond
      exact hnot hx)]
  · unfold drag
    rw [if_neg (by
      rw [mkIdleState_eq]
      simp [initialState])]
  · rw [hend]
    unfold useSortableCommit
    rw [if_neg (fun hc => hc.2 rfl)]

/-- Witness for C8: target `3` is not among registered nodes `[1, 2]`. -/
theorem unregistered_press_ignored_witness :
    dragStart (mkIdleState [1, 2]) 3 0 ⟨0, 0, 1, 1⟩ 9 = mkIdleState [1, 2] ∧
    drag (mkIdleState [1, 2]) 4 = mkIdleState [1, 2] ∧
    (dragEnd (mkIdleState [1, 2])).nodes = [1, 2] ∧
    (dragEnd (mkIdleState [1, 2])).draggedElement = none ∧
    (dragEnd (mkIdleState [1, 2])).draggedElementIndex = none ∧
    (dragEnd (mkIdleState [1, 2])).draggedElementNewIndex = none ∧
    (dragEnd (mkIdleState [1, 2])).duplicateNode = none ∧
    useSortableCommit (dragEnd (mkIdleState [1, 2])).isDragging
      (dragEnd (mkIdleState [1, 2])).draggedElementIndex
      (dragEnd (mkIdleState [1, 2])).draggedElementNewIndex [10, 20]
      = [10, 20] :=
  unregistered_press_ignored [1, 2] 3 0 4 ⟨0, 0, 1, 1⟩ 9 [10, 20] (by decide)

/-- Counterexample to claim C9: registering node `5` when it is already the
sole registry entry does not leave the registry unchanged: `ADD_NODE`
appends a duplicate. -/
theorem addNode_duplicate_cex :
    (reducer (mkIdleState [5]) (.addNode 5)).nodes = [5, 5] ∧
    (reducer (mkIdleState [5]) (.addNode 5)).nodes ≠ (mkIdleState [5]).nodes :=
  ⟨rfl, fun h =>
    absurd (show ([5, 5] : List Nat) = [5] from h) (by decide)⟩

/-- Claim C9 (amended): registration is append-only with no duplicate guard
(`ADD_NODE` always pushes), and registering each handle once in mount order
yields a registry whose order and length match the list model. -/
theorem addNode_appends (s : SortableState) (n : Nat) (ns : List Nat) :
    (reducer s (.addNode n)).nodes = s.nodes ++ [n] ∧
    (mkIdleState ns).nodes = ns := by
  refine ⟨rfl, ?_⟩
  rw [mkIdleState_eq]

/-- Claim C10: `DRAG_END` changes only the `isDragging` flag; every other
field — the registry, the recorded `initialY`, `currentY`, dragged element,
origin index, live target index and duplicate node — is left unchanged, so
the commit step after release reads exactly the indices recorded during the
session. -/
theorem dragEnd_only_isDragging (s : SortableState) :
    (dragEnd s).isDragging = some false ∧
    (dragEnd s).nodes = s.nodes ∧
    (dragEnd s).initialY = s.initialY ∧
    (dragEnd s).currentY = s.currentY ∧
    (dragEnd s).draggedElement = s.draggedElement ∧
    (dragEnd s).draggedElementIndex = s.draggedElementIndex ∧
    (dragEnd s).draggedElementNewIndex = s.draggedElementNewIndex ∧
    (dragEnd s).duplicateNode = s.duplicateNode :=
  ⟨rfl, rfl, rfl, rfl, rfl, rfl, rfl, rfl⟩
